import Mathlib

/-!
Verification development for the noisemaker effects module
(`src/noisemaker/effects.py`).

An image tensor is modelled as a height × width × channels grid of exact
rational samples (floating-point values are idealized as `ℚ`; places where
IEEE semantics themselves matter, such as division by zero, are modelled
explicitly).  The data field is a total function on natural indices; values
outside the declared bounds are junk and are never observed by the
operators except through explicit wraparound indexing, which mirrors the
Python code's modulo arithmetic.
-/

namespace Noisemaker

/-- An image tensor: axes (height, width, channels), sample values in `ℚ`.
The `data` function is total; only indices below the bounds are meaningful. -/
@[ext]
structure Image where
  height : ℕ
  width : ℕ
  channels : ℕ
  data : ℕ → ℕ → ℕ → ℚ

/-- A constant-valued image, every sample equal to `v`. -/
def constImg (h w c : ℕ) (v : ℚ) : Image :=
  ⟨h, w, c, fun _ _ _ => v⟩

/-- Extensional equality of images: same shape and same samples at every
in-bounds index. -/
def Image.eqOn (a b : Image) : Prop :=
  a.height = b.height ∧ a.width = b.width ∧ a.channels = b.channels ∧
    ∀ y, y < a.height → ∀ x, x < a.width → ∀ c, c < a.channels →
      a.data y x c = b.data y x c

instance (a b : Image) : Decidable (a.eqOn b) := by
  unfold Image.eqOn; infer_instance

/-- Wrap an integer index into `[0, n)` the way Python's `%` does
(Euclidean remainder, non-negative for positive modulus). -/
def wrapIdx (n : ℕ) (i : ℤ) : ℕ := (i % (n : ℤ)).toNat

/-- The list of all in-bounds samples of an image, row-major then by
channel; this is the element collection that `tf.reduce_min` /
`tf.reduce_max` fold over in `normalize`. -/
def samples (t : Image) : List ℚ :=
  (List.range t.height).flatMap fun y =>
    (List.range t.width).flatMap fun x =>
      (List.range t.channels).map fun c => t.data y x c

/-- Minimum of a list of samples (0 on the empty list, which `tf.reduce_min`
rejects; no claim depends on the empty case). -/
def listMin (l : List ℚ) : ℚ :=
  match l with
  | [] => 0
  | a :: r => r.foldl min a

/-- Maximum of a list of samples (0 on the empty list). -/
def listMax (l : List ℚ) : ℚ :=
  match l with
  | [] => 0
  | a :: r => r.foldl max a

/-- `tf.reduce_min(tensor)`: global minimum over all samples. -/
def reduceMin (t : Image) : ℚ := listMin (samples t)

/-- `tf.reduce_max(tensor)`: global maximum over all samples. -/
def reduceMax (t : Image) : ℚ := listMax (samples t)

/-- `normalize` from `effects.py`: `(tensor - reduce_min) / (reduce_max -
reduce_min)` pointwise.  Division is idealized as total `ℚ` division; this
is exact whenever `reduceMax t ≠ reduceMin t`.  The degenerate
denominator-zero case is modelled faithfully by `normalizeDiv` below. -/
def normalize (t : Image) : Image :=
  { t with data := fun y x c =>
      (t.data y x c - reduceMin t) / (reduceMax t - reduceMin t) }

/-- IEEE-faithful model of `tf.divide` on the values `normalize` feeds it:
a zero denominator produces no finite real result (`0/0` is NaN, `a/0` is
±infinity), modelled as `none`. -/
def tfDivide (a b : ℚ) : Option ℚ :=
  if b = 0 then none else some (a / b)

/-- The individual sample division performed by `normalize`, with the
IEEE division model: `none` means the float computation yields a
non-finite value (NaN for a constant tensor, where numerator and
denominator are both zero). -/
def normalizeDiv (t : Image) (y x c : ℕ) : Option ℚ :=
  tfDivide (t.data y x c - reduceMin t) (reduceMax t - reduceMin t)

/-- `crease` from `effects.py`: `temp = (tensor - .5) * 2`;
`temp = max(temp, temp * -1)`; result `= ones - temp`. -/
def crease (t : Image) : Image :=
  { t with data := fun y x c =>
      1 - max ((t.data y x c - 1/2) * 2) ((t.data y x c - 1/2) * 2 * (-1)) }

/-! ### Resampling (`resample`, built on `skimage.transform.resize`)

`skimage.transform.resize` is an external dependency, modelled here per its
documented semantics as used by `resample`: separable B-spline sampling of
the given order with periodic ("wrap") boundary handling, with output pixel
`i` mapped to input coordinate `(i + 1/2) * (n_in / n_out) - 1/2`.  The
order-3 prefilter step is omitted (it does not change the properties
claimed: target shape, channel pass-through, and exact reproduction of
constants, since the basis weights at any sample point sum to 1).
`tf.image.convert_image_dtype` between float dtypes is a plain cast and is
modelled as the identity. -/

/-- The uniform cubic B-spline basis function. -/
def bspline3 (t : ℚ) : ℚ :=
  if |t| ≤ 1 then (4 - 6 * |t| ^ 2 + 3 * |t| ^ 3) / 6
  else if |t| ≤ 2 then (2 - |t|) ^ 3 / 6
  else 0

/-- Interpolation taps for one axis: pairs of (offset from the floor of the
source coordinate, weight), given the fractional part `f` of the source
coordinate.  Order 0 is nearest-neighbour, order 1 linear, anything else is
cubic (only 3 is used by the code). -/
def splineTaps (o : ℕ) (f : ℚ) : List (ℤ × ℚ) :=
  if o = 0 then [(if f < 1/2 then 0 else 1, 1)]
  else if o = 1 then [(0, 1 - f), (1, f)]
  else [(-1, bspline3 (f + 1)), (0, bspline3 f), (1, bspline3 (1 - f)), (2, bspline3 (2 - f))]

/-- Sample a periodic 1-D signal `g` of period `n` at real coordinate `s`
with spline order `o`. -/
def sample1D (n : ℕ) (g : ℕ → ℚ) (o : ℕ) (s : ℚ) : ℚ :=
  ((splineTaps o (s - ⌊s⌋)).map (fun p => p.2 * g (wrapIdx n (⌊s⌋ + p.1)))).sum

/-- Source coordinate for output pixel `i` when resizing an axis from
`nIn` to `nOut` samples. -/
def srcCoord (nIn nOut i : ℕ) : ℚ :=
  ((i : ℚ) + 1/2) * ((nIn : ℚ) / (nOut : ℚ)) - 1/2

/-- The interpolated image `skimage.transform.resize` produces when it
succeeds: resize to (height, width) with the given spline order,
wraparound boundary, channels untouched. -/
def resampleImg (t : Image) (width height o : ℕ) : Image :=
  { height := height, width := width, channels := t.channels,
    data := fun y x c =>
      sample1D t.height
        (fun yy => sample1D t.width (fun xx => t.data yy xx c) o (srcCoord t.width width x))
        o (srcCoord t.height height y) }

/-- `resample` from `effects.py`.  `skimage.transform.resize` raises
(ZeroDivisionError computing the axis scale factor) when a target
dimension is zero, modelled as `none`; otherwise the resized image is
returned. -/
def resample (t : Image) (width height : ℕ) (o : ℕ) : Option Image :=
  if width = 0 ∨ height = 0 then none else some (resampleImg t width height o)

/-- Pointwise difference of two same-shaped images (`tensor - roundtrip`). -/
def Image.sub (a b : Image) : Image :=
  { a with data := fun y x c => a.data y x c - b.data y x c }

/-- `wavelet` from `effects.py`: `tensor - resample(resample(tensor,
int(width * .5), int(height * .5)), width, height)`; `resample` is called
with its default spline order 3, and `int(dim * .5)` is exact floored
halving.  When either halved dimension is zero (input width or height
below 2) the inner resize raises, propagated here as `none`. -/
def wavelet (t : Image) : Option Image :=
  (resample t (t.width / 2) (t.height / 2) 3).bind fun d =>
    (resample d t.width t.height 3).map fun r => Image.sub t r

/-! ### Self-displacement (`displace`)

The two `random.random()` draws are injected as explicit base offsets
`baseX`, `baseY` (each drawn as `int(random.random() * dim)`, hence in
`[0, dim)`), making the operator a deterministic function of the tensor and
the offsets.  Python's `int()` on a float truncates toward zero. -/

/-- Truncation toward zero, Python's `int()` on a real value. -/
def truncQ (q : ℚ) : ℤ := q.num.tdiv (q.den : ℤ)

/-- The single-channel reference used by `displace` on the channel counts
where the code does not raise: `tf.image.rgb_to_grayscale(tensor)` (luma
weights 0.2989, 0.587, 0.114) when `channels > 2` — only ever reached with
exactly 3 channels, see the guards in `displace` — else the tensor itself,
whose sole channel 0 is the value Python's `int()` extracts. -/
def toGray (t : Image) (y x : ℕ) : ℚ :=
  if 2 < t.channels then
    2989/10000 * t.data y x 0 + 587/1000 * t.data y x 1 + 114/1000 * t.data y x 2
  else t.data y x 0

/-- The displacement reference field: `(reference - .5) * (2 * displacement)`. -/
def dispRef (t : Image) (displacement : ℚ) (y x : ℕ) : ℚ :=
  (toGray t y x - 1/2) * (2 * displacement)

/-- `x_offset = (x + int(reference[(y + base_y_offset) % height][x] * width)) % width`. -/
def xOffset (t : Image) (disp : ℚ) (baseY x y : ℕ) : ℕ :=
  wrapIdx t.width ((x : ℤ) + truncQ (dispRef t disp ((y + baseY) % t.height) x * t.width))

/-- `y_offset = (y + int(reference[y][(x + base_x_offset) % width] * height)) % height`. -/
def yOffset (t : Image) (disp : ℚ) (baseX x y : ℕ) : ℕ :=
  wrapIdx t.height ((y : ℤ) + truncQ (dispRef t disp y ((x + baseX) % t.width) * t.height))

/-- The gather `displace` performs when it does not raise:
`temp[y][x] = tensor[y_offset][x_offset]` for every output pixel. -/
def displaceGather (t : Image) (disp : ℚ) (baseX baseY : ℕ) : Image :=
  { t with data := fun y x c => t.data (yOffset t disp baseX x y) (xOffset t disp baseY x y) c }

/-- `displace` from `effects.py`, with the base offsets passed explicitly
and the error paths made explicit: `tf.image.rgb_to_grayscale` raises on a
`channels > 2` tensor whose channel count is not exactly 3 (its length-3
luma weights do not broadcast), and for `channels ≤ 2` with a channel
count other than 1, Python's `int()` raises a TypeError on the first
reference row it meets (which requires the pixel loop to run at all, i.e.
positive width and height).  Otherwise the per-pixel gather is returned. -/
def displace (t : Image) (disp : ℚ) (baseX baseY : ℕ) : Option Image :=
  if 2 < t.channels ∧ t.channels ≠ 3 then none
  else if t.channels ≤ 2 ∧ t.channels ≠ 1 ∧ 0 < t.width ∧ 0 < t.height then none
  else some (displaceGather t disp baseX baseY)

/-- A cyclic shift of an image by (baseX, baseY), wrapped modulo the
dimensions: the reading of "cyclic shift of the input by the two random
base offsets" in the spec's test for `displace` with zero displacement. -/
def cyclicShift (t : Image) (baseX baseY : ℕ) : Image :=
  { t with data := fun y x c => t.data ((y + baseY) % t.height) ((x + baseX) % t.width) c }

/-! ### Convolution (`convolve`)

`_conform_kernel_to_tensor` replicates the kernel's integer weights across
every channel and converts the resulting int64 tensor to float32 with
`tf.image.convert_image_dtype`, which scales integer images by the dtype
maximum `2^63 - 1`.  The tensor is padded by 25% of each spatial dimension
with numpy "wrap" padding, convolved depthwise in VALID mode (which raises
in TensorFlow when the padded image is smaller than the kernel, modelled as
`none`), cropped back with `skimage.util.crop` — numpy basic slicing, whose
clamping of possibly-negative bounds is modelled by `npSliceClamp` — and
normalized. -/

namespace ConvKernel

/-- The `emboss` kernel. -/
def emboss : List (List ℤ) :=
  [[0, 2, 4], [-2, 1, 2], [-4, -2, 0]]

/-- The `shadow` kernel. -/
def shadow : List (List ℤ) :=
  [[0, 1, 1, 1, 1, 1, 1],
   [-1, 0, 2, 2, 1, 1, 1],
   [-1, -2, 0, 4, 2, 1, 1],
   [-1, -2, -4, 8, 4, 2, 1],
   [-1, -1, -2, -4, 0, 2, 1],
   [-1, -1, -1, -2, -2, 0, 1],
   [-1, -1, -1, -1, -1, -1, 0]]

/-- The `edges` kernel. -/
def edges : List (List ℤ) :=
  [[1, 2, 1], [2, -12, 2], [1, 2, 1]]

/-- The `sharpen` kernel. -/
def sharpen : List (List ℤ) :=
  [[0, -1, 0], [-1, 5, -1], [0, -1, 0]]

/-- The `unsharp_mask` kernel. -/
def unsharp_mask : List (List ℤ) :=
  [[1, 4, 6, 4, 1],
   [4, 16, 24, 16, 4],
   [6, 24, -476, 24, 6],
   [4, 16, 24, 16, 4],
   [1, 4, 6, 4, 1]]

end ConvKernel

/-- Numpy "wrap" padding by `ph` rows and `pw` columns on each side:
padded index `y` reads original row `(y - ph) mod height`. -/
def padWrap (t : Image) (ph pw : ℕ) : Image :=
  { height := t.height + 2 * ph, width := t.width + 2 * pw, channels := t.channels,
    data := fun y x c =>
      t.data (wrapIdx t.height ((y : ℤ) - ph)) (wrapIdx t.width ((x : ℤ) - pw)) c }

/-- `tf.nn.depthwise_conv2d(..., "VALID")` with the conformed kernel: each
channel is convolved independently with the same spatial weights, scaled by
`1 / (2^63 - 1)` from the int64-to-float image dtype conversion.  TensorFlow
raises when the input is smaller than the kernel (output dimension would be
non-positive), modelled as `none`. -/
def depthwiseConvValid (k : List (List ℤ)) (t : Image) : Option Image :=
  if k.length ≤ t.height ∧ k.length ≤ t.width then
    some { height := t.height - (k.length - 1), width := t.width - (k.length - 1),
           channels := t.channels,
           data := fun y x c =>
             ((List.range k.length).map fun i =>
               ((List.range k.length).map fun j =>
                 (((k.getD i []).getD j 0 : ℚ) / (2 ^ 63 - 1)) * t.data (y + i) (x + j) c).sum).sum }
  else none

/-- Normalize a (possibly negative) Python slice bound against axis length
`dim`, per numpy basic slicing: negative bounds count from the end, then
clamp into `[0, dim]`. -/
def npSliceClamp (dim : ℕ) (i : ℤ) : ℕ :=
  if i < 0 then (i + dim).toNat else min i.toNat dim

/-- `skimage.util.crop(ar, ((ch, ch), (cw, cw), (0, 0)))`: keep rows
`ch : height - ch` and columns `cw : width - cw` in Python slice semantics
(the crop amounts are Python ints and may be negative for small inputs). -/
def crop2D (t : Image) (ch cw : ℤ) : Image :=
  { height := npSliceClamp t.height ((t.height : ℤ) - ch) - npSliceClamp t.height ch,
    width := npSliceClamp t.width ((t.width : ℤ) - cw) - npSliceClamp t.width cw,
    channels := t.channels,
    data := fun y x c =>
      t.data (npSliceClamp t.height ch + y) (npSliceClamp t.width cw + x) c }

/-- `convolve` from `effects.py`: pad by `int(dim * .25)` with wrap,
depthwise-convolve in VALID mode, crop back by
`int((post_dim - dim) * .5)` per side, then `normalize`.  `int(x)` is
truncation toward zero (`Int.tdiv`); `none` models the TensorFlow error on
tensors whose padded extent is smaller than the kernel. -/
def convolve (k : List (List ℤ)) (t : Image) : Option Image :=
  Option.map
    (fun conv => normalize (crop2D conv
        (((conv.height : ℤ) - t.height).tdiv 2)
        (((conv.width : ℤ) - t.width).tdiv 2)))
    (depthwiseConvValid k (padWrap t (t.height / 4) (t.width / 4)))

/-! ### Concrete images used to witness and refute claims -/

/-- A 1×2×1 image with samples 0 and 1 (a minimal non-constant tensor). -/
def testImg : Image := ⟨1, 2, 1, fun _ x _ => (x : ℚ)⟩

/-- A 2×2×1 image with four distinct samples 0, 1/4, 1/2, 3/4. -/
def gridImg : Image := ⟨2, 2, 1, fun y x _ => ((2 * y + x : ℕ) : ℚ) / 4⟩

/-! ### Helper lemmas on sample lists and `normalize` -/

theorem foldl_min_le_init (l : List ℚ) : ∀ a : ℚ, l.foldl min a ≤ a := by
  induction l with
  | nil => intro a; simp
  | cons b r ih => intro a; exact le_trans (ih (min a b)) (min_le_left a b)

theorem init_le_foldl_max (l : List ℚ) : ∀ a : ℚ, a ≤ l.foldl max a := by
  induction l with
  | nil => intro a; simp
  | cons b r ih => intro a; exact le_trans (le_max_left a b) (ih (max a b))

theorem listMin_le_listMax (l : List ℚ) : listMin l ≤ listMax l := by
  cases l with
  | nil => exact le_refl 0
  | cons a r => exact le_trans (foldl_min_le_init r a) (init_le_foldl_max r a)

theorem reduceMin_le_reduceMax (t : Image) : reduceMin t ≤ reduceMax t :=
  listMin_le_listMax (samples t)

theorem foldl_min_map (f : ℚ → ℚ) (hf : ∀ u v : ℚ, f (min u v) = min (f u) (f v)) :
    ∀ (l : List ℚ) (a : ℚ), (l.map f).foldl min (f a) = f (l.foldl min a) := by
  intro l
  induction l with
  | nil => intro a; simp
  | cons b r ih =>
    intro a
    simp only [List.map_cons, List.foldl_cons]
    rw [← hf a b]
    exact ih (min a b)

theorem foldl_max_map (f : ℚ → ℚ) (hf : ∀ u v : ℚ, f (max u v) = max (f u) (f v)) :
    ∀ (l : List ℚ) (a : ℚ), (l.map f).foldl max (f a) = f (l.foldl max a) := by
  intro l
  induction l with
  | nil => intro a; simp
  | cons b r ih =>
    intro a
    simp only [List.map_cons, List.foldl_cons]
    rw [← hf a b]
    exact ih (max a b)

theorem samples_map (t : Image) (f : ℚ → ℚ) :
    samples ⟨t.height, t.width, t.channels, fun y x c => f (t.data y x c)⟩
      = (samples t).map f := by
  simp [samples, List.map_flatMap, List.map_map, Function.comp_def]

theorem samples_normalize (t : Image) :
    samples (normalize t)
      = (samples t).map fun s => (s - reduceMin t) / (reduceMax t - reduceMin t) := by
  unfold normalize
  exact samples_map t fun s => (s - reduceMin t) / (reduceMax t - reduceMin t)

theorem samples_ne_nil_of_minmax (t : Image) (h : reduceMin t ≠ reduceMax t) :
    samples t ≠ [] := by
  intro hnil
  apply h
  simp only [reduceMin, reduceMax, hnil]
  rfl

theorem normMap_monotone (mn d : ℚ) (hd : 0 < d) :
    Monotone fun s : ℚ => (s - mn) / d := by
  intro u v huv
  simp only [div_eq_mul_inv]
  exact mul_le_mul_of_nonneg_right (sub_le_sub_right huv mn) (inv_nonneg.2 hd.le)

theorem listMin_affine (l : List ℚ) (hl : l ≠ []) (mn d : ℚ) (hd : 0 < d) :
    listMin (l.map fun s => (s - mn) / d) = (listMin l - mn) / d := by
  obtain ⟨a, r, rfl⟩ := List.exists_cons_of_ne_nil hl
  simp only [List.map_cons, listMin]
  exact foldl_min_map (fun s : ℚ => (s - mn) / d)
    (fun u v => @Monotone.map_min ℚ ℚ _ _ (fun s : ℚ => (s - mn) / d) u v
      (normMap_monotone mn d hd)) r a

theorem listMax_affine (l : List ℚ) (hl : l ≠ []) (mn d : ℚ) (hd : 0 < d) :
    listMax (l.map fun s => (s - mn) / d) = (listMax l - mn) / d := by
  obtain ⟨a, r, rfl⟩ := List.exists_cons_of_ne_nil hl
  simp only [List.map_cons, listMax]
  exact foldl_max_map (fun s : ℚ => (s - mn) / d)
    (fun u v => @Monotone.map_max ℚ ℚ _ _ (fun s : ℚ => (s - mn) / d) u v
      (normMap_monotone mn d hd)) r a

theorem wrapIdx_lt (n : ℕ) (i : ℤ) (h : 0 < n) : wrapIdx n i < n := by
  unfold wrapIdx
  have h1 : 0 ≤ i % (n : ℤ) := Int.emod_nonneg i (by exact_mod_cast h.ne')
  have h2 : i % (n : ℤ) < n := Int.emod_lt_of_pos i (by exact_mod_cast h)
  omega

theorem wrapIdx_coe (n x : ℕ) (h : x < n) : wrapIdx n (x : ℤ) = x := by
  unfold wrapIdx
  have h2 : (x : ℤ) % n = x := Int.emod_eq_of_lt (by positivity) (by exact_mod_cast h)
  omega

theorem truncQ_zero : truncQ 0 = 0 := rfl

theorem dispRef_zero (t : Image) (y x : ℕ) : dispRef t 0 y x = 0 := by
  unfold dispRef
  ring

theorem foldl_min_const (v : ℚ) :
    ∀ (r : List ℚ) (a : ℚ), (∀ z ∈ r, z = v) → a = v → r.foldl min a = v := by
  intro r
  induction r with
  | nil => intro a _ ha; exact ha
  | cons b l ih =>
    intro a hall ha
    have hb : b = v := hall b (List.mem_cons_self b l)
    refine ih (min a b) (fun z hz => hall z (List.mem_cons_of_mem b hz)) ?_
    rw [ha, hb, min_self]

theorem foldl_max_const (v : ℚ) :
    ∀ (r : List ℚ) (a : ℚ), (∀ z ∈ r, z = v) → a = v → r.foldl max a = v := by
  intro r
  induction r with
  | nil => intro a _ ha; exact ha
  | cons b l ih =>
    intro a hall ha
    have hb : b = v := hall b (List.mem_cons_self b l)
    refine ih (max a b) (fun z hz => hall z (List.mem_cons_of_mem b hz)) ?_
    rw [ha, hb, max_self]

theorem samples_const_mem (h w c : ℕ) (v : ℚ) :
    ∀ z ∈ samples (constImg h w c v), z = v := by
  intro z hz
  simp [samples, constImg] at hz
  exact hz.2.2.2

theorem samples_const_ne_nil (h w c : ℕ) (v : ℚ)
    (hh : 0 < h) (hw : 0 < w) (hc : 0 < c) :
    samples (constImg h w c v) ≠ [] := by
  have hv : v ∈ samples (constImg h w c v) := by
    simp only [samples, constImg, List.mem_flatMap, List.mem_map, List.mem_range]
    exact ⟨0, hh, 0, hw, 0, hc, trivial⟩
  exact List.ne_nil_of_mem hv

theorem reduceMin_const (h w c : ℕ) (v : ℚ)
    (hh : 0 < h) (hw : 0 < w) (hc : 0 < c) :
    reduceMin (constImg h w c v) = v := by
  obtain ⟨a, r, hs⟩ :=
    List.exists_cons_of_ne_nil (samples_const_ne_nil h w c v hh hw hc)
  have hall := samples_const_mem h w c v
  rw [hs] at hall
  show listMin (samples (constImg h w c v)) = v
  rw [hs]
  exact foldl_min_const v r a (fun z hz => hall z (List.mem_cons_of_mem a hz))
    (hall a (List.mem_cons_self a r))

theorem reduceMax_const (h w c : ℕ) (v : ℚ)
    (hh : 0 < h) (hw : 0 < w) (hc : 0 < c) :
    reduceMax (constImg h w c v) = v := by
  obtain ⟨a, r, hs⟩ :=
    List.exists_cons_of_ne_nil (samples_const_ne_nil h w c v hh hw hc)
  have hall := samples_const_mem h w c v
  rw [hs] at hall
  show listMax (samples (constImg h w c v)) = v
  rw [hs]
  exact foldl_max_const v r a (fun z hz => hall z (List.mem_cons_of_mem a hz))
    (hall a (List.mem_cons_self a r))

theorem minmax_gap_pos (t : Image) (hne : reduceMin t ≠ reduceMax t) :
    0 < reduceMax t - reduceMin t :=
  sub_pos.2 (lt_of_le_of_ne (reduceMin_le_reduceMax t) hne)

theorem reduceMin_normalize (t : Image) (hne : reduceMin t ≠ reduceMax t) :
    reduceMin (normalize t) = 0 := by
  have hd := minmax_gap_pos t hne
  have h1 : reduceMin (normalize t) = (reduceMin t - reduceMin t) / (reduceMax t - reduceMin t) := by
    simp only [reduceMin, samples_normalize]
    exact listMin_affine (samples t) (samples_ne_nil_of_minmax t hne) _ _ hd
  rw [h1, sub_self, zero_div]

theorem reduceMax_normalize (t : Image) (hne : reduceMin t ≠ reduceMax t) :
    reduceMax (normalize t) = 1 := by
  have hd := minmax_gap_pos t hne
  have h1 : reduceMax (normalize t) = (reduceMax t - reduceMin t) / (reduceMax t - reduceMin t) := by
    simp only [reduceMax, samples_normalize]
    have := listMax_affine (samples t) (samples_ne_nil_of_minmax t hne)
      (reduceMin t) (reduceMax t - reduceMin t) hd
    simp only [reduceMin, reduceMax] at this
    exact this
  rw [h1, div_self hd.ne']

/-! ### Claims about `normalize` and `crease` -/

/-- C5: for every tensor with non-constant values (global minimum distinct
from global maximum), `normalize` has minimum 0 and maximum 1 and is the
affine rescaling sending each sample `s` to
`(s - min) / (max - min)`, so the minimum maps to 0 and the maximum to 1. -/
theorem normalize_affine_minmax (t : Image) (hne : reduceMin t ≠ reduceMax t) :
    reduceMin (normalize t) = 0 ∧ reduceMax (normalize t) = 1 ∧
      ∀ y x c : ℕ, (normalize t).data y x c
        = (t.data y x c - reduceMin t) / (reduceMax t - reduceMin t) :=
  ⟨reduceMin_normalize t hne, reduceMax_normalize t hne, fun _ _ _ => rfl⟩

/-- Witness for C5 at the concrete non-constant image `testImg`. -/
theorem normalize_affine_minmax_witness :
    reduceMin (normalize testImg) = 0 ∧ reduceMax (normalize testImg) = 1 ∧
      ∀ y x c : ℕ, (normalize testImg).data y x c
        = (testImg.data y x c - reduceMin testImg) / (reduceMax testImg - reduceMin testImg) :=
  normalize_affine_minmax testImg (by
    norm_num [reduceMin, reduceMax, show samples testImg = [(0 : ℚ), 1] from rfl,
      listMin, listMax, min_def, max_def])

/-- C10: `normalize` is idempotent on tensors with non-constant values:
after one application the minimum is 0 and the maximum is 1, so the second
rescaling is the identity. -/
theorem normalize_idempotent (t : Image) (hne : reduceMin t ≠ reduceMax t) :
    normalize (normalize t) = normalize t := by
  have h0 := reduceMin_normalize t hne
  have h1 := reduceMax_normalize t hne
  refine Image.ext rfl rfl rfl ?_
  funext y x c
  show ((normalize t).data y x c - reduceMin (normalize t))
      / (reduceMax (normalize t) - reduceMin (normalize t)) = (normalize t).data y x c
  rw [h0, h1]
  norm_num

/-- Witness for C10 at the concrete non-constant image `testImg`. -/
theorem normalize_idempotent_witness :
    normalize (normalize testImg) = normalize testImg :=
  normalize_idempotent testImg (by
    norm_num [reduceMin, reduceMax, show samples testImg = [(0 : ℚ), 1] from rfl,
      listMin, listMax, min_def, max_def])

/-- C3: on a constant tensor the division `normalize` performs has a zero
denominator (`reduce_max - reduce_min = 0`) and, the numerator also being
zero, every sample is IEEE `0/0 = NaN`; the code has no guard, so the
computation reaches the division and yields no finite value (`none` in the
`tfDivide` model).  This exhibits the unhandled degenerate case at the
concrete constant tensor of shape 2×2×1 with value 1/2. -/
theorem normalize_const_divzero :
    normalizeDiv (constImg 2 2 1 (1/2)) 0 0 0 = none := by
  have h1 := reduceMin_const 2 2 1 (1/2) (by norm_num) (by norm_num) (by norm_num)
  have h2 := reduceMax_const 2 2 1 (1/2) (by norm_num) (by norm_num) (by norm_num)
  unfold normalizeDiv tfDivide
  rw [h1, h2]
  norm_num

/-- C4 counterexample: `crease` maps the all-0.5 tensor to the all-ONE
tensor (`1 - |2*(0.5-0.5)| = 1`), not to all-zero as the claim states. -/
theorem crease_half_counterexample :
    ¬ Image.eqOn (crease (constImg 1 1 1 (1/2))) (constImg 1 1 1 0) := by
  intro h
  have hd := h.2.2.2 0 (by decide) 0 (by decide) 0 (by decide)
  have hv : (1 : ℚ) - max ((1/2 - 1/2) * 2) ((1/2 - 1/2) * 2 * (-1)) = 0 := hd
  norm_num [max_def] at hv

/-- C4 amended: `crease` maps the all-0.5 tensor to all-1, maps the all-0
and all-1 tensors to all-0 (the claim's directions are inverted), and is
symmetric about 0.5. -/
theorem crease_const_values (h w c : ℕ) :
    crease (constImg h w c (1/2)) = constImg h w c 1 ∧
    crease (constImg h w c 0) = constImg h w c 0 ∧
    crease (constImg h w c 1) = constImg h w c 0 ∧
    ∀ d : ℚ, crease (constImg h w c (1/2 + d)) = crease (constImg h w c (1/2 - d)) := by
  refine ⟨?_, ?_, ?_, fun d => ?_⟩
  · refine Image.ext rfl rfl rfl ?_
    funext y x cc
    show (1 : ℚ) - max ((1/2 - 1/2) * 2) ((1/2 - 1/2) * 2 * (-1)) = 1
    norm_num [max_def]
  · refine Image.ext rfl rfl rfl ?_
    funext y x cc
    show (1 : ℚ) - max ((0 - 1/2) * 2) ((0 - 1/2) * 2 * (-1)) = 0
    norm_num [max_def]
  · refine Image.ext rfl rfl rfl ?_
    funext y x cc
    show (1 : ℚ) - max ((1 - 1/2) * 2) ((1 - 1/2) * 2 * (-1)) = 0
    norm_num [max_def]
  · refine Image.ext rfl rfl rfl ?_
    funext y x cc
    show (1 : ℚ) - max ((1/2 + d - 1/2) * 2) ((1/2 + d - 1/2) * 2 * (-1))
        = 1 - max ((1/2 - d - 1/2) * 2) ((1/2 - d - 1/2) * 2 * (-1))
    have e1 : (1/2 + d - 1/2 : ℚ) * 2 = d * 2 := by ring
    have e2 : (1/2 + d - 1/2 : ℚ) * 2 * (-1) = -(d * 2) := by ring
    have e3 : (1/2 - d - 1/2 : ℚ) * 2 = -(d * 2) := by ring
    have e4 : (1/2 - d - 1/2 : ℚ) * 2 * (-1) = d * 2 := by ring
    rw [e2, e1, e4, e3, max_comm]

/-- C6: `crease` computes `1 - |2*(s - 0.5)|` elementwise (shape
unchanged), sends samples 0, 0.5, 1 to 0, 1, 0 respectively, and maps
`[0,1]` samples to `[0,1]` samples. -/
theorem crease_pointwise (t : Image) :
    ((crease t).height = t.height ∧ (crease t).width = t.width ∧
      (crease t).channels = t.channels) ∧
    (∀ y x c : ℕ, (crease t).data y x c = 1 - |2 * (t.data y x c - 1/2)|) ∧
    (∀ y x c : ℕ,
      (t.data y x c = 0 → (crease t).data y x c = 0) ∧
      (t.data y x c = 1/2 → (crease t).data y x c = 1) ∧
      (t.data y x c = 1 → (crease t).data y x c = 0)) ∧
    (∀ y x c : ℕ, 0 ≤ t.data y x c → t.data y x c ≤ 1 →
      0 ≤ (crease t).data y x c ∧ (crease t).data y x c ≤ 1) := by
  have hf : ∀ y x c : ℕ, (crease t).data y x c = 1 - |2 * (t.data y x c - 1/2)| := by
    intro y x c
    show 1 - max ((t.data y x c - 1/2) * 2) ((t.data y x c - 1/2) * 2 * (-1))
        = 1 - |2 * (t.data y x c - 1/2)|
    have h1 : (t.data y x c - 1/2) * 2 * (-1) = -((t.data y x c - 1/2) * 2) := by ring
    have h2 : (t.data y x c - 1/2) * 2 = 2 * (t.data y x c - 1/2) := by ring
    rw [h1, ← abs_eq_max_neg, h2]
  refine ⟨⟨rfl, rfl, rfl⟩, hf, ?_, ?_⟩
  · intro y x c
    refine ⟨fun hs => ?_, fun hs => ?_, fun hs => ?_⟩ <;> rw [hf y x c, hs] <;> norm_num
  · intro y x c h0 h1
    rw [hf y x c]
    have ha : |2 * (t.data y x c - 1/2)| ≤ 1 := abs_le.2 ⟨by linarith, by linarith⟩
    have hb : 0 ≤ |2 * (t.data y x c - 1/2)| := abs_nonneg _
    exact ⟨by linarith, by linarith⟩

/-- Witness for C6: at the all-0.5 1×1×1 image the range-preservation part
applies with its hypotheses discharged concretely. -/
theorem crease_pointwise_witness :
    0 ≤ (crease (constImg 1 1 1 (1/2))).data 0 0 0 ∧
      (crease (constImg 1 1 1 (1/2))).data 0 0 0 ≤ 1 :=
  (crease_pointwise (constImg 1 1 1 (1/2))).2.2.2 0 0 0 (by norm_num [constImg])
    (by norm_num [constImg])

/-! ### Claims about `resample` and `wavelet` -/

theorem bspline3_sum (f : ℚ) (h0 : 0 ≤ f) (h1 : f < 1) :
    bspline3 (f + 1) + bspline3 f + bspline3 (1 - f) + bspline3 (2 - f) = 1 := by
  have a1 : |f + 1| = f + 1 := abs_of_nonneg (by linarith)
  have a2 : |f| = f := abs_of_nonneg h0
  have a3 : |1 - f| = 1 - f := abs_of_nonneg (by linarith)
  have a4 : |2 - f| = 2 - f := abs_of_nonneg (by linarith)
  rcases eq_or_lt_of_le h0 with hf0 | hf0
  · rw [← hf0]
    norm_num [bspline3]
  · unfold bspline3
    rw [a1, a2, a3, a4]
    rw [if_neg (by linarith), if_pos (by linarith), if_pos (by linarith),
      if_pos (by linarith), if_neg (by linarith), if_pos (by linarith)]
    ring

theorem splineTaps_weight_sum (o : ℕ) (f : ℚ) (h0 : 0 ≤ f) (h1 : f < 1) :
    ((splineTaps o f).map Prod.snd).sum = 1 := by
  unfold splineTaps
  by_cases ho : o = 0
  · simp [ho]
  · rw [if_neg ho]
    by_cases ho1 : o = 1
    · simp [ho1]
    · rw [if_neg ho1]
      simp only [List.map_cons, List.map_nil, List.sum_cons, List.sum_nil, add_zero]
      have := bspline3_sum f h0 h1
      linarith

theorem sample1D_const (n o : ℕ) (s v : ℚ) :
    sample1D n (fun _ => v) o s = v := by
  unfold sample1D
  have h0 : 0 ≤ s - ⌊s⌋ := sub_nonneg.2 (Int.floor_le s)
  have h1 : s - ⌊s⌋ < 1 := by
    have := Int.lt_floor_add_one s
    linarith
  have hw := splineTaps_weight_sum o (s - ⌊s⌋) h0 h1
  calc ((splineTaps o (s - ⌊s⌋)).map fun p => p.2 * v).sum
      = ((splineTaps o (s - ⌊s⌋)).map Prod.snd).sum * v :=
        List.sum_map_mul_right _ _ _
    _ = v := by rw [hw, one_mul]

theorem resampleImg_const (h w c W H o : ℕ) (v : ℚ) :
    resampleImg (constImg h w c v) W H o = constImg H W c v := by
  refine Image.ext rfl rfl rfl ?_
  funext y x cc
  show sample1D h
      (fun yy => sample1D w (fun xx => v) o (srcCoord w W x)) o (srcCoord h H y) = v
  have hin : (fun yy : ℕ => sample1D w (fun xx => v) o (srcCoord w W x))
      = fun _ : ℕ => v := funext fun yy => sample1D_const w o _ v
  rw [hin]
  exact sample1D_const h o _ v

/-- C7: for every positive target width and height and every supported
spline order, `resample` succeeds and honors the target dimensions,
leaving the channel count unchanged. -/
theorem resample_shape (t : Image) (w h o : ℕ) (hw : 0 < w) (hh : 0 < h)
    (ho : o = 0 ∨ o = 1 ∨ o = 3) :
    ∃ u, resample t w h o = some u ∧
      u.height = h ∧ u.width = w ∧ u.channels = t.channels := by
  refine ⟨resampleImg t w h o, ?_, rfl, rfl, rfl⟩
  unfold resample
  rw [if_neg (by omega)]

/-- Witness for C7 at a concrete image and target shape. -/
theorem resample_shape_witness :
    ∃ u, resample testImg 3 2 3 = some u ∧
      u.height = 2 ∧ u.width = 3 ∧ u.channels = testImg.channels :=
  resample_shape testImg 3 2 3 (by decide) (by decide) (by decide)

/-- C9 counterexample: on a valid 1×1×1 constant tensor, `wavelet` does
not return a tensor at all: it calls resize with target dimensions
`int(1 * .5) = 0`, on which `skimage.transform.resize` raises, so the
universal claim fails at this input. -/
theorem wavelet_one_counterexample :
    wavelet (constImg 1 1 1 (1/2)) = none := rfl

/-- C9 amended: for every constant tensor with value in `[0,1]` whose
height and width are at least 2 (so both halved target dimensions are
positive and the resizes succeed), `wavelet` returns the all-zero tensor
of the same shape: the down/up resampling round trip reproduces the
constant exactly, and `wavelet` returns the difference.  For smaller
spatial dimensions the inner resize raises. -/
theorem wavelet_const_zero (h w c : ℕ) (v : ℚ) (hh : 2 ≤ h) (hw : 2 ≤ w)
    (h0 : 0 ≤ v) (h1 : v ≤ 1) :
    wavelet (constImg h w c v) = some (constImg h w c 0) := by
  have e1 : resample (constImg h w c v) ((constImg h w c v).width / 2)
      ((constImg h w c v).height / 2) 3 = some (constImg (h / 2) (w / 2) c v) := by
    unfold resample
    rw [if_neg (by show ¬(w / 2 = 0 ∨ h / 2 = 0); omega), resampleImg_const]
    rfl
  have e2 : resample (constImg (h / 2) (w / 2) c v) (constImg h w c v).width
      (constImg h w c v).height 3 = some (constImg h w c v) := by
    unfold resample
    rw [if_neg (by show ¬(w = 0 ∨ h = 0); omega), resampleImg_const]
    rfl
  unfold wavelet
  rw [e1]
  show (resample (constImg (h / 2) (w / 2) c v) (constImg h w c v).width
      (constImg h w c v).height 3).map (fun r => Image.sub (constImg h w c v) r)
    = some (constImg h w c 0)
  rw [e2]
  show some (Image.sub (constImg h w c v) (constImg h w c v)) = some (constImg h w c 0)
  refine congrArg some ?_
  refine Image.ext rfl rfl rfl ?_
  funext y x cc
  show v - v = 0
  exact sub_self v

/-- Witness for the amended C9 at a concrete 4×4×1 constant image with
value 1/2. -/
theorem wavelet_const_zero_witness :
    wavelet (constImg 4 4 1 (1/2)) = some (constImg 4 4 1 0) :=
  wavelet_const_zero 4 4 1 (1/2) (by decide) (by decide) (by norm_num) (by norm_num)

/-! ### Claims about `displace` -/

theorem xOffset_zero_disp (t : Image) (baseY x y : ℕ) (hx : x < t.width) :
    xOffset t 0 baseY x y = x := by
  unfold xOffset
  rw [dispRef_zero, zero_mul, truncQ_zero, add_zero]
  exact wrapIdx_coe t.width x hx

theorem yOffset_zero_disp (t : Image) (baseX x y : ℕ) (hy : y < t.height) :
    yOffset t 0 baseX x y = y := by
  unfold yOffset
  rw [dispRef_zero, zero_mul, truncQ_zero, add_zero]
  exact wrapIdx_coe t.height y hy

/-- C1 counterexample: at the 2×2×1 image with four distinct samples and
base offsets (1, 1), `displace` with zero displacement does NOT produce
the cyclic shift of the input by the base offsets — the base offsets only
select where the (identically zero) reference field is read, so the output
is the unshifted input. -/
theorem displace_zero_shift_counterexample :
    ¬ ∃ u, displace gridImg 0 1 1 = some u ∧ Image.eqOn u (cyclicShift gridImg 1 1) := by
  rintro ⟨u, hu, heq⟩
  have hps : displace gridImg 0 1 1 = some (displaceGather gridImg 0 1 1) := rfl
  rw [hps] at hu
  rw [← Option.some.inj hu] at heq
  have hc := heq.2.2.2 0 (by decide) 0 (by decide) 0 (by decide)
  have hx : xOffset gridImg 0 1 0 0 = 0 := xOffset_zero_disp gridImg 1 0 0 (by decide)
  have hy : yOffset gridImg 0 1 0 0 = 0 := yOffset_zero_disp gridImg 1 0 0 (by decide)
  have hl : (displaceGather gridImg 0 1 1).data 0 0 0 = gridImg.data 0 0 0 := by
    show gridImg.data (yOffset gridImg 0 1 0 0) (xOffset gridImg 0 1 0 0) 0
        = gridImg.data 0 0 0
    rw [hx, hy]
  have hr : (cyclicShift gridImg 1 1).data 0 0 0 = gridImg.data 1 1 0 := rfl
  rw [hl, hr] at hc
  have : ((0 : ℕ) : ℚ) / 4 = ((3 : ℕ) : ℚ) / 4 := hc
  norm_num at this

/-- C1 amended: on the channel counts where `displace` does not raise
(1 grayscale channel or exactly 3 RGB channels), `displace` with zero
displacement strength succeeds and returns the input itself (in-bounds
extensional equality): the reference field rescales to zero everywhere, so
each gather index reduces to the output pixel's own coordinates,
regardless of the two base offsets; the result is deterministic given
fixed base offsets. -/
theorem displace_zero_identity (t : Image) (baseX baseY : ℕ)
    (hc : t.channels = 1 ∨ t.channels = 3) :
    ∃ u, displace t 0 baseX baseY = some u ∧ Image.eqOn u t := by
  have hcond1 : ¬(2 < t.channels ∧ t.channels ≠ 3) := by
    rcases hc with h | h <;> simp [h]
  have hcond2 : ¬(t.channels ≤ 2 ∧ t.channels ≠ 1 ∧ 0 < t.width ∧ 0 < t.height) := by
    rcases hc with h | h <;> simp [h]
  refine ⟨displaceGather t 0 baseX baseY, ?_, rfl, rfl, rfl, ?_⟩
  · unfold displace
    rw [if_neg hcond1, if_neg hcond2]
  · intro y hy x hx c _
    show t.data (yOffset t 0 baseX x y) (xOffset t 0 baseY x y) c = t.data y x c
    rw [xOffset_zero_disp t baseY x y hx, yOffset_zero_disp t baseX x y hy]

/-- Witness for the amended C1 at the concrete single-channel image
`gridImg` with base offsets (1, 1). -/
theorem displace_zero_identity_witness :
    ∃ u, displace gridImg 0 1 1 = some u ∧ Image.eqOn u gridImg :=
  displace_zero_identity gridImg 1 1 (Or.inl rfl)

/-- C8: every source index `displace` computes — the two reference-field
lookups and the final gather coordinates — is reduced modulo the tensor's
width or height, hence in bounds, for every displacement value and base
offsets and every in-bounds output pixel. -/
theorem displace_indices_inbounds (t : Image) (disp : ℚ) (baseX baseY y x : ℕ)
    (hy : y < t.height) (hx : x < t.width) :
    xOffset t disp baseY x y < t.width ∧ yOffset t disp baseX x y < t.height ∧
      (y + baseY) % t.height < t.height ∧ (x + baseX) % t.width < t.width := by
  have hh : 0 < t.height := lt_of_le_of_lt (Nat.zero_le y) hy
  have hw : 0 < t.width := lt_of_le_of_lt (Nat.zero_le x) hx
  exact ⟨wrapIdx_lt t.width _ hw, wrapIdx_lt t.height _ hh,
    Nat.mod_lt _ hh, Nat.mod_lt _ hw⟩

/-- Witness for C8 at a concrete image, displacement 1, base offsets (1, 1)
and pixel (0, 0). -/
theorem displace_indices_inbounds_witness :
    xOffset gridImg 1 1 0 0 < gridImg.width ∧ yOffset gridImg 1 1 0 0 < gridImg.height ∧
      (0 + 1) % gridImg.height < gridImg.height ∧ (0 + 1) % gridImg.width < gridImg.width :=
  displace_indices_inbounds gridImg 1 1 1 0 0 (by decide) (by decide)

/-! ### Claims about `convolve` -/

theorem depthwiseConvValid_some (k : List (List ℤ)) (t : Image)
    (hc : k.length ≤ t.height ∧ k.length ≤ t.width) :
    ∃ u, depthwiseConvValid k t = some u ∧
      u.height = t.height - (k.length - 1) ∧ u.width = t.width - (k.length - 1) ∧
      u.channels = t.channels := by
  unfold depthwiseConvValid
  rw [if_pos hc]
  exact ⟨_, rfl, rfl, rfl, rfl⟩

theorem convolve_shape_of_odd (k : List (List ℤ)) (t : Image) (m : ℕ)
    (hm : 1 ≤ m) (hl : k.length = 2 * m + 1)
    (hht : k.length ≤ 2 * (t.height / 4) + 1)
    (hwt : k.length ≤ 2 * (t.width / 4) + 1) :
    ∃ u, convolve k t = some u ∧ u.height = t.height ∧ u.width = t.width ∧
      u.channels = t.channels := by
  have hcond : k.length ≤ (padWrap t (t.height / 4) (t.width / 4)).height ∧
      k.length ≤ (padWrap t (t.height / 4) (t.width / 4)).width := by
    constructor
    · show k.length ≤ t.height + 2 * (t.height / 4)
      omega
    · show k.length ≤ t.width + 2 * (t.width / 4)
      omega
  obtain ⟨u0, hu0, hh0, hw0, hc0⟩ :=
    depthwiseConvValid_some k (padWrap t (t.height / 4) (t.width / 4)) hcond
  have hph : (padWrap t (t.height / 4) (t.width / 4)).height = t.height + 2 * (t.height / 4) := rfl
  have hpw : (padWrap t (t.height / 4) (t.width / 4)).width = t.width + 2 * (t.width / 4) := rfl
  have hpc : (padWrap t (t.height / 4) (t.width / 4)).channels = t.channels := rfl
  rw [hph] at hh0
  rw [hpw] at hw0
  rw [hpc] at hc0
  have hu0h : u0.height = t.height + 2 * (t.height / 4) - 2 * m := by omega
  have hu0w : u0.width = t.width + 2 * (t.width / 4) - 2 * m := by omega
  have hch : ((u0.height : ℤ) - t.height).tdiv 2 = (t.height / 4 : ℕ) - (m : ℤ) := by
    have h1 : ((u0.height : ℤ) - t.height) = 2 * ((t.height / 4 : ℕ) - (m : ℤ)) := by omega
    rw [h1]
    exact Int.mul_tdiv_cancel_left _ two_ne_zero
  have hcw : ((u0.width : ℤ) - t.width).tdiv 2 = (t.width / 4 : ℕ) - (m : ℤ) := by
    have h1 : ((u0.width : ℤ) - t.width) = 2 * ((t.width / 4 : ℕ) - (m : ℤ)) := by omega
    rw [h1]
    exact Int.mul_tdiv_cancel_left _ two_ne_zero
  refine ⟨normalize (crop2D u0 (((u0.height : ℤ) - t.height).tdiv 2)
      (((u0.width : ℤ) - t.width).tdiv 2)), ?_, ?_, ?_, ?_⟩
  · unfold convolve
    rw [hu0]
    rfl
  · show npSliceClamp u0.height ((u0.height : ℤ) - ((u0.height : ℤ) - t.height).tdiv 2)
        - npSliceClamp u0.height (((u0.height : ℤ) - t.height).tdiv 2) = t.height
    rw [hch]
    unfold npSliceClamp
    rw [if_neg (by omega), if_neg (by omega)]
    omega
  · show npSliceClamp u0.width ((u0.width : ℤ) - ((u0.width : ℤ) - t.width).tdiv 2)
        - npSliceClamp u0.width (((u0.width : ℤ) - t.width).tdiv 2) = t.width
    rw [hcw]
    unfold npSliceClamp
    rw [if_neg (by omega), if_neg (by omega)]
    omega
  · exact hc0

/-- C2 counterexample: `convolve` with the 3×3 `emboss` kernel on a 3×3×1
tensor returns a 1×1 tensor, not a 3×3 one: the 25% padding of a size-3
axis is zero, the VALID convolution shrinks the axis to 1, and the crop
step (crop amount `int((1 - 3) * .5) = -1`, a negative Python slice bound)
cannot restore the original extent. -/
theorem convolve_shape_counterexample :
    ¬ ((convolve ConvKernel.emboss (constImg 3 3 1 0)).map Image.height = some 3) := by
  decide

/-- C2 amended: `convolve` preserves shape (height, width, channel count,
for any channel count) for every kernel in the enumerated set, provided
each spatial dimension is large enough that the 25% wrap padding gives the
kernel room: `l ≤ 2 * (dim / 4) + 1` where `l` is the kernel's side
(so height and width are at least 4 for the 3×3 kernels, 8 for 5×5, 12 for
7×7).  For smaller tensors the convolution fails (TensorFlow raises when
the padded extent is below the kernel size) or returns a smaller tensor. -/
theorem convolve_shape_preserved (k : List (List ℤ)) (t : Image)
    (hk : k = ConvKernel.emboss ∨ k = ConvKernel.shadow ∨ k = ConvKernel.edges ∨
      k = ConvKernel.sharpen ∨ k = ConvKernel.unsharp_mask)
    (hht : k.length ≤ 2 * (t.height / 4) + 1)
    (hwt : k.length ≤ 2 * (t.width / 4) + 1) :
    ∃ u, convolve k t = some u ∧ u.height = t.height ∧ u.width = t.width ∧
      u.channels = t.channels := by
  rcases hk with rfl | rfl | rfl | rfl | rfl
  · exact convolve_shape_of_odd _ t 1 (by decide) rfl hht hwt
  · exact convolve_shape_of_odd _ t 3 (by decide) rfl hht hwt
  · exact convolve_shape_of_odd _ t 1 (by decide) rfl hht hwt
  · exact convolve_shape_of_odd _ t 1 (by decide) rfl hht hwt
  · exact convolve_shape_of_odd _ t 2 (by decide) rfl hht hwt

/-- Witness for the amended C2: the `emboss` kernel on a 4×4×1 tensor. -/
theorem convolve_shape_preserved_witness :
    ∃ u, convolve ConvKernel.emboss (constImg 4 4 1 0) = some u ∧
      u.height = (constImg 4 4 1 0).height ∧ u.width = (constImg 4 4 1 0).width ∧
      u.channels = (constImg 4 4 1 0).channels :=
  convolve_shape_preserved ConvKernel.emboss (constImg 4 4 1 0) (Or.inl rfl)
    (by decide) (by decide)

end Noisemaker
